import Mathlib

/-
  Verification of the answer-evaluation and spaced-repetition scheduling
  engine of the learnvoice repository.

  The engine consists of the text-processing utilities (normalizeText,
  levenshteinDistance, fuzzyMatch, findKeywordInText, analyzeKeywords,
  wordOverlapSimilarity) and the evaluation service (evaluateAnswer,
  generateFeedback, extractPhrases, calculateNextReview).

  Embedding choices: JavaScript strings are modelled as lists of code
  points (the inputs of interest are ASCII, so case mapping and the
  regular expression character classes are modelled at ASCII level);
  JavaScript numbers are modelled as exact rationals; Math.round is
  round-half-up; the ambient Math.random() choice of a feedback message
  template is modelled by an explicit index parameter r, and Date.now()
  by an explicit now parameter, so that every function is a pure
  function of its arguments.
-/

set_option maxRecDepth 100000

abbrev Str := List Nat

/-- Code points of a string literal. -/
def S (s : String) : Str := s.data.map Char.toNat

/-- ASCII word character, the regex class w: letters, digits, underscore. -/
def isWordCode (c : Nat) : Bool :=
  (48 ≤ c && c ≤ 57) || (65 ≤ c && c ≤ 90) || (97 ≤ c && c ≤ 122) || c == 95

/-- ASCII whitespace, the regex class s. -/
def isSpaceCode (c : Nat) : Bool :=
  c == 32 || c == 9 || c == 10 || c == 11 || c == 12 || c == 13

/-- ASCII lower-casing of one code point (toLowerCase). -/
def toLowerCode (c : Nat) : Nat := if 65 ≤ c ∧ c ≤ 90 then c + 32 else c

/-- JS toLowerCase over the whole string. -/
def toLowerStr (s : Str) : Str := s.map toLowerCode

/-- JS trim: drop whitespace from both ends. -/
def trimStr (s : Str) : Str :=
  ((s.dropWhile isSpaceCode).reverse.dropWhile isSpaceCode).reverse

/-- Replace each maximal run of whitespace by a single space
    (the replace of the regex s+ by one space).  The flag records
    whether we are inside a run whose space was already emitted. -/
def collapseSpacesAux : Bool → Str → Str
  | _, [] => []
  | inRun, c :: rest =>
    if isSpaceCode c then
      if inRun then collapseSpacesAux true rest
      else 32 :: collapseSpacesAux true rest
    else c :: collapseSpacesAux false rest

def collapseSpaces (s : Str) : Str := collapseSpacesAux false s

/-- normalizeText from textProcessing: lowercase, trim, replace each
    non-word non-space character by a space, collapse whitespace runs,
    trim again. -/
def normalizeText (text : Str) : Str :=
  trimStr (collapseSpaces
    ((trimStr (toLowerStr text)).map
      (fun c => if !(isWordCode c || isSpaceCode c) then 32 else c)))

/-- The cell recurrence of the levenshteinDistance table of the
    source: dp i 0 = i, dp 0 j = j and dp i j = dp (i-1) (j-1) when
    the characters agree, otherwise
    1 + min (dp (i-1) j) (min (dp i (j-1)) (dp (i-1) (j-1))).  This
    is that recurrence written as a recursion on the two strings; it
    is the specification used to prove the metric properties, while
    levenshteinDistance below computes the same table row by row. -/
def levRec : Str → Str → Nat
  | [], ys => ys.length
  | x :: xs, [] => (x :: xs).length
  | x :: xs, y :: ys =>
    if x = y then levRec xs ys
    else 1 + min (levRec xs (y :: ys))
            (min (levRec (x :: xs) ys) (levRec xs ys))
termination_by a b => a.length + b.length
decreasing_by all_goals simp_arith

/-- One row of the levenshtein table, kept for computing concrete
    distances: entry i of the result is the distance from the i-th
    suffix of xs to ys. -/
def rowSpec : Str → Str → List Nat
  | [], ys => [levRec [] ys]
  | x :: xs, ys => levRec (x :: xs) ys :: rowSpec xs ys

/-- Row update of the levenshtein table: from the row for ys, produce
    the row for y :: ys. -/
def buildRow (y : Nat) : Str → List Nat → List Nat
  | [], row => [row.headI + 1]
  | x :: xs, row =>
    match buildRow y xs row.tail with
    | [] => []
    | h :: t =>
      (if x = y then row.tail.headI
       else 1 + min h (min row.headI row.tail.headI)) :: h :: t

/-- Initial row of the levenshtein table (distances to the empty string). -/
def initRow : Str → List Nat
  | [] => [0]
  | x :: xs => (x :: xs).length :: initRow xs

/-- levenshteinDistance from textProcessing: the dynamic-programming
    table of the source, evaluated row by row (entry i of each row is
    the distance between the i-th suffix of xs and the processed part
    of ys).  Proved below to satisfy the cell recurrence levRec. -/
def levenshteinDistance (xs ys : Str) : Nat :=
  (ys.foldr (fun y row => buildRow y xs row) (initRow xs)).headI

/-- JS Math.round on rationals: round half toward positive infinity. -/
def jsRound (x : ℚ) : ℚ := ((⌊x + 1/2⌋ : ℤ) : ℚ)

/-- Prefix test for code-point lists. -/
def isPrefixStr : Str → Str → Bool
  | [], _ => true
  | _ :: _, [] => false
  | a :: as, b :: bs => a == b && isPrefixStr as bs

/-- JS includes: sub occurs as a contiguous substring of s. -/
def strIncludes (s sub : Str) : Bool :=
  isPrefixStr sub s ||
    match s with
    | [] => false
    | _ :: t => strIncludes t sub

/-- Auxiliary recursion of splitOnSpace, carrying the reversed current
    piece. -/
def splitOnSpaceGo : Str → Str → List Str
  | [], cur => [cur.reverse]
  | c :: rest, cur =>
    if c == 32 then cur.reverse :: splitOnSpaceGo rest []
    else splitOnSpaceGo rest (c :: cur)

/-- JS split on a single space, keeping empty pieces. -/
def splitOnSpace (s : Str) : List Str := splitOnSpaceGo s []

/-- fuzzyMatch from textProcessing. -/
def fuzzyMatch (word target : Str) (threshold : ℚ) : Bool :=
  let a := toLowerStr word
  let b := toLowerStr target
  if a == b then true
  else if strIncludes a b || strIncludes b a then true
  else
    let maxLen := max a.length b.length
    if maxLen == 0 then true
    else decide ((1 : ℚ) - (levenshteinDistance a b : ℚ) / (maxLen : ℚ) ≥ threshold)

/-- findKeywordInText from textProcessing; the source default threshold
    is 0.75 and is passed explicitly here. -/
def findKeywordInText (text keyword : Str) (threshold : ℚ) : Bool :=
  let normalizedText := normalizeText text
  let normalizedKeyword := normalizeText keyword
  if strIncludes normalizedText normalizedKeyword then true
  else
    let textWords := splitOnSpace normalizedText
    let keywordWords := splitOnSpace normalizedKeyword
    if 1 < keywordWords.length then
      keywordWords.all (fun kw => textWords.any (fun tw => fuzzyMatch tw kw threshold))
    else
      textWords.any (fun tw => fuzzyMatch tw normalizedKeyword threshold)

structure KeywordDetail where
  keyword : Str
  found : Bool
  weight : ℚ
deriving DecidableEq

/-- The weight lookup weights[index] with the JS or-default 1:
    undefined (index out of range) and 0 are falsy and give 1. -/
def jsWeight : Option ℚ → ℚ
  | none => 1
  | some v => if v = 0 then 1 else v

structure AnalyzeResult where
  score : ℚ
  details : List KeywordDetail
deriving DecidableEq

/-- The indexed map inside analyzeKeywords, walking keywords together
    with the weight list. -/
def analyzeDetails (text : Str) : List Str → List ℚ → List KeywordDetail
  | [], _ => []
  | k :: ks, ws =>
    ⟨k, findKeywordInText text k (3/4), jsWeight ws.head?⟩ :: analyzeDetails text ks ws.tail

/-- analyzeKeywords from textProcessing. -/
def analyzeKeywords (text : Str) (keywords : List Str) (weights : List ℚ) : AnalyzeResult :=
  if keywords = [] then ⟨100, []⟩
  else
    let totalWeight := weights.sum
    let details := analyzeDetails text keywords weights
    let matchedWeight := (details.map (fun d => if d.found then d.weight else 0)).sum
    let score := if 0 < totalWeight then matchedWeight / totalWeight * 100 else 0
    ⟨score, details⟩

/-- wordOverlapSimilarity from textProcessing: Jaccard similarity of
    the two normalized word sets, scaled to 0..100.  The JS Sets are
    modelled by deduplicated lists. -/
def wordOverlapSimilarity (a b : Str) : ℚ :=
  let wordsA := ((splitOnSpace (normalizeText a)).filter (fun w => w ≠ [])).dedup
  let wordsB := ((splitOnSpace (normalizeText b)).filter (fun w => w ≠ [])).dedup
  if wordsA.length = 0 ∧ wordsB.length = 0 then 100
  else if wordsA.length = 0 ∨ wordsB.length = 0 then 0
  else
    let intersection := (wordsA.filter (fun w => w ∈ wordsB)).length
    let union := (wordsA ++ wordsB).dedup.length
    (intersection : ℚ) / (union : ℚ) * 100

/-- extractPhrases with minWords = 2, as called by evaluateAnswer:
    contiguous 2-word windows over the words longer than 2 characters,
    joined by one space. -/
def extractPhrases (text : Str) : List Str :=
  let words := (splitOnSpace text).filter (fun w => 2 < w.length)
  (words.zip words.tail).map (fun p => p.1 ++ 32 :: p.2)

inductive FeedbackCategory where
  | perfect | excellent | good | needsWork | incorrect
deriving DecidableEq

structure Feedback where
  message : String
  details : String
  category : FeedbackCategory

/-- Rendering of a code-point string for feedback text. -/
def strRender (s : Str) : String := String.mk (s.map Char.ofNat)

/-- JS Array.join with a comma separator. -/
def joinComma : List String → String
  | [] => ""
  | [s] => s
  | s :: rest => s ++ ", " ++ joinComma rest

/-- generateFeedback from evaluationService.  The category and the
    list of message templates are picked by the score thresholds; the
    source chooses one template with Math.random, modelled here by the
    explicit index r. -/
def generateFeedback (r : Nat) (score : ℚ) (missingKeywords : List Str) : Feedback :=
  let cm : FeedbackCategory × List String :=
    if score = 100 then
      (.perfect,
        ["Perfect! You nailed it!",
         "Absolutely correct! Full marks!",
         "Excellent! You\x27ve mastered this one!"])
    else if 90 ≤ score then
      (.excellent,
        ["Excellent! " ++ toString score ++ "% - Almost perfect!",
         "Great job! " ++ toString score ++ "% - You really know this!",
         "Impressive! " ++ toString score ++ "% - Keep it up!"])
    else if 70 ≤ score then
      (.good,
        ["Good effort! " ++ toString score ++ "%",
         "Nice! " ++ toString score ++ "% - You\x27re getting there!",
         toString score ++ "% - Good, minor details missed."])
    else if 50 ≤ score then
      (.needsWork,
        [toString score ++ "% - Let\x27s review this one.",
         toString score ++ "% - Good start, needs more detail.",
         toString score ++ "% - Would you like to try again?"])
    else
      (.incorrect,
        [toString score ++ "% - Don\x27t give up!",
         toString score ++ "% - Let\x27s look at the correct answer.",
         toString score ++ "% - Every attempt helps you learn!"])
  let message := cm.2.getD (r % cm.2.length) ""
  let details :=
    if 0 < missingKeywords.length ∧ score < 100 then
      if missingKeywords.length ≤ 3 then
        "Key terms to include: " ++ joinComma (missingKeywords.map strRender)
      else
        "Missing " ++ toString missingKeywords.length ++ " key terms including: " ++
          joinComma ((missingKeywords.take 3).map strRender)
    else ""
  ⟨message, details, cm.1⟩

/-- The fields of a Question consumed by the engine. -/
structure Question where
  expectedAnswers : List Str
  keywords : List Str
  keywordWeights : List ℚ

structure EvaluationResult where
  score : ℚ
  keywordScore : ℚ
  keywordDetails : List KeywordDetail
  feedback : Feedback
  userAnswer : Str
  expectedAnswer : Str

/-- The keyword detail list built in the exact-match branch of
    evaluateAnswer: every keyword marked found, with its weight
    defaulted by the JS or. -/
def exactDetails : List Str → List ℚ → List KeywordDetail
  | [], _ => []
  | k :: ks, ws => ⟨k, true, jsWeight ws.head?⟩ :: exactDetails ks ws.tail

/-- evaluateAnswer from evaluationService. -/
def evaluateAnswer (r : Nat) (userAnswer : Str) (question : Question) : EvaluationResult :=
  let normalized := normalizeText userAnswer
  let expectedAnswer := question.expectedAnswers.headD []
  if question.expectedAnswers.any (fun expected => normalizeText expected == normalized) then
    { score := 100
      keywordScore := 100
      keywordDetails := exactDetails question.keywords question.keywordWeights
      feedback := generateFeedback r 100 []
      userAnswer := normalized
      expectedAnswer := expectedAnswer }
  else
    let keywordResult := analyzeKeywords normalized question.keywords question.keywordWeights
    let bestOverlap := question.expectedAnswers.foldl
      (fun best alt =>
        let overlap := wordOverlapSimilarity normalized alt
        if best < overlap then overlap else best) 0
    let bestDistanceScore := question.expectedAnswers.foldl
      (fun best alt =>
        let normAlt := normalizeText alt
        let dist := levenshteinDistance normalized normAlt
        let maxLen : ℚ := max (normalized.length : ℚ) (max (normAlt.length : ℚ) 1)
        let similarity := max 0 (1 - (dist : ℚ) / maxLen) * 100
        if best < similarity then similarity else best) 0
    let normalizedLower := toLowerStr normalized
    let phraseBonus := question.expectedAnswers.foldl
      (fun best expected =>
        let expectedLower := toLowerStr (normalizeText expected)
        let phrases := extractPhrases expectedLower
        let matchedPhrases := (phrases.filter (fun p => strIncludes normalizedLower p)).length
        if 0 < phrases.length then
          max best ((matchedPhrases : ℚ) / (phrases.length : ℚ) * 100)
        else best) 0
    let combinedScore := jsRound
      (keywordResult.score * 0.45 + bestOverlap * 0.25 +
       bestDistanceScore * 0.15 + phraseBonus * 0.15)
    let finalScore := min 100 (max 0 combinedScore)
    let missingKeywords := (keywordResult.details.filter (fun d => !d.found)).map (·.keyword)
    let feedback := generateFeedback r finalScore missingKeywords
    { score := finalScore
      keywordScore := jsRound keywordResult.score
      keywordDetails := keywordResult.details
      feedback := feedback
      userAnswer := normalized
      expectedAnswer := expectedAnswer }

structure ReviewUpdate where
  easeFactor : ℚ
  interval : ℚ
  repetitions : ℚ
  nextReviewDate : ℚ

/-- calculateNextReview from evaluationService (SM-2 variant); the
    Date.now() of the source is the explicit now argument. -/
def calculateNextReview (score currentEaseFactor currentInterval currentRepetitions now : ℚ) :
    ReviewUpdate :=
  let quality := jsRound (score / 100 * 5)
  let ir : ℚ × ℚ :=
    if 3 ≤ quality then
      (if currentRepetitions = 0 then 1
       else if currentRepetitions = 1 then 6
       else jsRound (currentInterval * currentEaseFactor),
       currentRepetitions + 1)
    else (1, 0)
  let easeFactor :=
    max 1.3 (currentEaseFactor + (0.1 - (5 - quality) * (0.08 + (5 - quality) * 0.02)))
  ⟨easeFactor, ir.1, ir.2, now + ir.1 * 24 * 60 * 60 * 1000⟩

/-- The item of the exact-match example in the spec. -/
def mitoItem : Question :=
  { expectedAnswers := [S "the mitochondria"]
    keywords := []
    keywordWeights := [] }

/-- The item of the end-to-end scenario in the spec. -/
def c3item : Question :=
  { expectedAnswers := [S "mitochondria is the powerhouse of the cell"]
    keywords := [S "mitochondria", S "powerhouse"]
    keywordWeights := [1, 1] }

/-- An item with zero accepted answers, a caller contract violation. -/
def noAnswersItem : Question :=
  { expectedAnswers := []
    keywords := [S "k"]
    keywordWeights := [1] }

/-
  Lemmas about the edit distance.
-/

theorem lev_nil_left (ys : Str) : levRec [] ys = ys.length := by
  simp [levRec]

theorem lev_nil_right (xs : Str) : levRec xs [] = xs.length := by
  cases xs <;> simp [levRec]

theorem lev_cons_cons (x y : Nat) (xs ys : Str) :
    levRec (x :: xs) (y :: ys) =
      if x = y then levRec xs ys
      else 1 + min (levRec xs (y :: ys))
              (min (levRec (x :: xs) ys) (levRec xs ys)) := by
  rw [levRec]

theorem rowSpec_headI (xs ys : Str) :
    (rowSpec xs ys).headI = levRec xs ys := by
  cases xs <;> simp [rowSpec]

theorem buildRow_rowSpec (y : Nat) (xs ys : Str) :
    buildRow y xs (rowSpec xs ys) = rowSpec xs (y :: ys) := by
  induction xs with
  | nil =>
    simp [buildRow, rowSpec, lev_nil_left]
  | cons x xs ih =>
    have htail : (rowSpec (x :: xs) ys).tail = rowSpec xs ys := by
      simp [rowSpec]
    rw [buildRow, htail, ih]
    have hshape : rowSpec xs (y :: ys) =
        levRec xs (y :: ys) :: (rowSpec xs (y :: ys)).tail := by
      cases xs <;> simp [rowSpec]
    rw [hshape]
    simp only [rowSpec, rowSpec_headI, List.headI_cons]
    rw [lev_cons_cons]
    rcases xs with _ | ⟨x', xs'⟩ <;> simp [rowSpec]

theorem foldr_rowSpec (xs ys : Str) :
    ys.foldr (fun y row => buildRow y xs row) (initRow xs) = rowSpec xs ys := by
  induction ys with
  | nil =>
    simp only [List.foldr_nil]
    induction xs with
    | nil => simp [initRow, rowSpec, lev_nil_right]
    | cons x xs ih => simp [initRow, rowSpec, lev_nil_right, ih]
  | cons y ys ih =>
    simp only [List.foldr_cons, ih, buildRow_rowSpec]

theorem levenshteinDistance_eq (xs ys : Str) : levenshteinDistance xs ys = levRec xs ys := by
  rw [levenshteinDistance, foldr_rowSpec, rowSpec_headI]

theorem lev_eq_levenshteinDistance : levRec = levenshteinDistance :=
  funext fun xs => funext fun ys => (levenshteinDistance_eq xs ys).symm

theorem lev_self (a : Str) : levRec a a = 0 := by
  induction a with
  | nil => simp [lev_nil_left]
  | cons x xs ih => rw [lev_cons_cons, if_pos rfl, ih]

theorem lev_comm (a b : Str) : levRec a b = levRec b a := by
  suffices H : ∀ n (a b : Str), a.length + b.length ≤ n →
      levRec a b = levRec b a from H _ a b le_rfl
  intro n
  induction n with
  | zero =>
    intro a b h
    have ha : a = [] := List.length_eq_zero.mp (by omega)
    have hb : b = [] := List.length_eq_zero.mp (by omega)
    subst ha; subst hb; rfl
  | succ n ih =>
    intro a b h
    cases a with
    | nil => simp [lev_nil_left, lev_nil_right]
    | cons x xs =>
      cases b with
      | nil => simp [lev_nil_left, lev_nil_right]
      | cons y ys =>
        simp only [List.length_cons] at h
        rw [lev_cons_cons, lev_cons_cons]
        have h1 := ih xs (y :: ys) (by simp only [List.length_cons]; omega)
        have h2 := ih (x :: xs) ys (by simp only [List.length_cons]; omega)
        have h3 := ih xs ys (by omega)
        by_cases hxy : x = y
        · subst hxy; rw [if_pos rfl, if_pos rfl, h3]
        · rw [if_neg hxy, if_neg (Ne.symm hxy), h1, h2, h3]
          omega

theorem lev_le_lengths (a b : Str) :
    levRec a b ≤ a.length + b.length := by
  induction a generalizing b with
  | nil => simp [lev_nil_left]
  | cons x xs ih =>
    cases b with
    | nil => simp [lev_nil_right]
    | cons y ys =>
      rw [lev_cons_cons]
      have h3 := ih ys
      by_cases hxy : x = y
      · rw [if_pos hxy]; simp only [List.length_cons]; omega
      · rw [if_neg hxy]; simp only [List.length_cons]; omega

theorem length_le_lev (a b : Str) :
    b.length ≤ a.length + levRec a b ∧
    a.length ≤ b.length + levRec a b := by
  suffices H : ∀ n (a b : Str), a.length + b.length ≤ n →
      b.length ≤ a.length + levRec a b ∧
      a.length ≤ b.length + levRec a b from H _ a b le_rfl
  intro n
  induction n with
  | zero =>
    intro a b h
    have ha : a = [] := List.length_eq_zero.mp (by omega)
    have hb : b = [] := List.length_eq_zero.mp (by omega)
    subst ha; subst hb; simp
  | succ n ih =>
    intro a b h
    cases a with
    | nil => simp [lev_nil_left]
    | cons x xs =>
      cases b with
      | nil => simp [lev_nil_right]
      | cons y ys =>
        simp only [List.length_cons] at h
        rw [lev_cons_cons]
        have h1 := ih xs (y :: ys) (by simp only [List.length_cons]; omega)
        have h2 := ih (x :: xs) ys (by simp only [List.length_cons]; omega)
        have h3 := ih xs ys (by omega)
        simp only [List.length_cons] at h1 h2 h3 ⊢
        by_cases hxy : x = y
        · rw [if_pos hxy]; omega
        · rw [if_neg hxy]; omega

theorem lev_cons_bound (x : Nat) (xs ys : Str) :
    levRec (x :: xs) ys ≤ 1 + levRec xs ys ∧
    levRec xs ys ≤ 1 + levRec (x :: xs) ys := by
  suffices H : ∀ n (x : Nat) (xs ys : Str), xs.length + ys.length ≤ n →
      levRec (x :: xs) ys ≤ 1 + levRec xs ys ∧
      levRec xs ys ≤ 1 + levRec (x :: xs) ys from
    H _ x xs ys le_rfl
  intro n
  induction n with
  | zero =>
    intro x xs ys h
    have hxs : xs = [] := List.length_eq_zero.mp (by omega)
    have hys : ys = [] := List.length_eq_zero.mp (by omega)
    subst hxs; subst hys
    rw [lev_nil_right, lev_nil_right]
    simp
  | succ n ih =>
    intro x xs ys h
    cases ys with
    | nil =>
      rw [lev_nil_right, lev_nil_right]
      simp only [List.length_cons]; omega
    | cons y ys' =>
      simp only [List.length_cons] at h
      rw [lev_cons_cons]
      have hcomm1 : levRec xs ys' = levRec ys' xs :=
        lev_comm _ _
      have hcomm2 : levRec xs (y :: ys') =
          levRec (y :: ys') xs := lev_comm _ _
      have hmirror := ih y ys' xs (by omega)
      by_cases hxy : x = y
      · rw [if_pos hxy]; omega
      · rw [if_neg hxy]
        have hB := (ih x xs ys' (by omega)).2
        omega

theorem lev_cons_right_le (y : Nat) (xs ys : Str) :
    levRec xs (y :: ys) ≤ 1 + levRec xs ys := by
  have h1 : levRec xs (y :: ys) = levRec (y :: ys) xs :=
    lev_comm _ _
  have h2 : levRec ys xs = levRec xs ys := lev_comm _ _
  have h3 := (lev_cons_bound y ys xs).1
  omega

theorem lev_sub_bound (x y : Nat) (xs ys : Str) :
    levRec (x :: xs) (y :: ys) ≤ 1 + levRec xs ys := by
  rw [lev_cons_cons]
  by_cases hxy : x = y
  · rw [if_pos hxy]; omega
  · rw [if_neg hxy]; omega

theorem lev_triangle (a b c : Str) :
    levRec a c ≤ levRec a b + levRec b c := by
  suffices H : ∀ n (a b c : Str), a.length + b.length + c.length ≤ n →
      levRec a c ≤
        levRec a b + levRec b c from H _ a b c le_rfl
  intro n
  induction n with
  | zero =>
    intro a b c h
    have ha : a = [] := List.length_eq_zero.mp (by omega)
    have hc : c = [] := List.length_eq_zero.mp (by omega)
    subst ha; subst hc
    simp [lev_nil_left]
  | succ n ih =>
    intro a b c h
    cases b with
    | nil =>
      rw [lev_nil_right, lev_nil_left]
      have hE := lev_le_lengths a c
      omega
    | cons y b' =>
      cases a with
      | nil =>
        rw [lev_nil_left, lev_nil_left]
        have hG := (length_le_lev (y :: b') c).1
        simp only [List.length_cons] at hG ⊢
        omega
      | cons x a' =>
        cases c with
        | nil =>
          rw [lev_nil_right, lev_nil_right]
          have hG := (length_le_lev (x :: a') (y :: b')).2
          simp only [List.length_cons] at hG ⊢
          omega
        | cons z c' =>
          simp only [List.length_cons] at h
          have T1 := ih a' b' c' (by omega)
          have T2 := ih a' b' (z :: c') (by simp only [List.length_cons]; omega)
          have T3 := ih (x :: a') b' (z :: c') (by simp only [List.length_cons]; omega)
          have T4 := ih a' (y :: b') (z :: c') (by simp only [List.length_cons]; omega)
          have T5 := ih (x :: a') (y :: b') c' (by simp only [List.length_cons]; omega)
          have hA := (lev_cons_bound x a' (z :: c')).1
          have hC := lev_cons_right_le z (x :: a') c'
          have hS := lev_sub_bound x z a' c'
          have hByb := (lev_cons_bound y b' (z :: c')).2
          have e1 := lev_cons_cons x z a' c'
          have e2 := lev_cons_cons x y a' b'
          have e3 := lev_cons_cons y z b' c'
          split_ifs at e1 e2 e3 <;> omega

/-
  Helper lemmas about jsRound and the scheduler.
-/

theorem jsRound_le_of_lt (x : ℚ) (z : ℤ) (h : x + 1/2 < z + 1) :
    jsRound x ≤ (z : ℚ) := by
  unfold jsRound
  have hz : ⌊x + 1/2⌋ < z + 1 := Int.floor_lt.mpr (by exact_mod_cast h)
  exact_mod_cast Int.lt_add_one_iff.mp hz

theorem jsRound_eq (x : ℚ) (z : ℤ) (h1 : (z : ℚ) ≤ x + 1/2) (h2 : x + 1/2 < z + 1) :
    jsRound x = (z : ℚ) := by
  unfold jsRound
  have hz : ⌊x + 1/2⌋ = z := Int.floor_eq_iff.mpr ⟨h1, by exact_mod_cast h2⟩
  exact_mod_cast hz

/-- C4: for every input, the ease factor returned by calculateNextReview
    equals max 1.3 (easeFactor + 0.1 - (5 - quality) * (0.08 + (5 - quality) * 0.02))
    with quality = round (score / 100 * 5), the same update being applied
    on the pass and on the fail branch, and it is never below 1.3. -/
theorem schedule_easeFactor_update (score ef intv reps now : ℚ) :
    (calculateNextReview score ef intv reps now).easeFactor =
      max 1.3 (ef + (0.1 - (5 - jsRound (score / 100 * 5)) *
        (0.08 + (5 - jsRound (score / 100 * 5)) * 0.02))) ∧
    (1.3 : ℚ) ≤ (calculateNextReview score ef intv reps now).easeFactor := by
  refine ⟨rfl, ?_⟩
  have h : (calculateNextReview score ef intv reps now).easeFactor =
      max 1.3 (ef + (0.1 - (5 - jsRound (score / 100 * 5)) *
        (0.08 + (5 - jsRound (score / 100 * 5)) * 0.02))) := rfl
  rw [h]
  exact le_max_left _ _

theorem generateFeedback_category (r : Nat) (score : ℚ) (mks : List Str) :
    (generateFeedback r score mks).category =
      if score = 100 then FeedbackCategory.perfect
      else if 90 ≤ score then FeedbackCategory.excellent
      else if 70 ≤ score then FeedbackCategory.good
      else if 50 ≤ score then FeedbackCategory.needsWork
      else FeedbackCategory.incorrect := by
  simp only [generateFeedback]
  split_ifs <;> rfl

/-- C8: for a fixed answer and item the score, keywordScore,
    keywordDetails and feedback category of evaluateAnswer do not
    depend on the random template index, and the easeFactor, interval
    and repetitions returned by calculateNextReview do not depend on
    the current time. -/
theorem engine_deterministic (ua : Str) (q : Question) (r1 r2 : Nat)
    (s ef intv reps n1 n2 : ℚ) :
    (evaluateAnswer r1 ua q).score = (evaluateAnswer r2 ua q).score ∧
    (evaluateAnswer r1 ua q).keywordScore = (evaluateAnswer r2 ua q).keywordScore ∧
    (evaluateAnswer r1 ua q).keywordDetails = (evaluateAnswer r2 ua q).keywordDetails ∧
    (evaluateAnswer r1 ua q).feedback.category =
      (evaluateAnswer r2 ua q).feedback.category ∧
    (calculateNextReview s ef intv reps n1).easeFactor =
      (calculateNextReview s ef intv reps n2).easeFactor ∧
    (calculateNextReview s ef intv reps n1).interval =
      (calculateNextReview s ef intv reps n2).interval ∧
    (calculateNextReview s ef intv reps n1).repetitions =
      (calculateNextReview s ef intv reps n2).repetitions := by
  refine ⟨?_, ?_, ?_, ?_, rfl, rfl, rfl⟩ <;>
    · simp only [evaluateAnswer]
      cases hb : q.expectedAnswers.any
          (fun expected => normalizeText expected == normalizeText ua) <;>
        simp [hb, generateFeedback_category]

/-- C2 counterexample: a score of 50 lies strictly below 60, yet
    quality = round (50 / 100 * 5) = 3, so the scheduler takes the
    pass branch: repetitions increments and the interval grows instead
    of resetting. -/
theorem schedule_reset_counterexample :
    (50 : ℚ) < 60 ∧
    (calculateNextReview 50 2.5 10 5 0).repetitions = 6 ∧
    (calculateNextReview 50 2.5 10 5 0).interval = 25 := by
  refine ⟨by norm_num, ?_, ?_⟩ <;> with_unfolding_all decide

/-- C2 amended: for every score with quality below 3 - equivalently
    score < 50, not score < 60 - the scheduler resets repetitions to 0
    and the interval to 1, and the returned ease factor is never below
    1.3 and is strictly below the input ease factor whenever that
    input is above 1.3. -/
theorem schedule_fail_reset (score ef intv reps now : ℚ) (h : score < 50) :
    (calculateNextReview score ef intv reps now).repetitions = 0 ∧
    (calculateNextReview score ef intv reps now).interval = 1 ∧
    (1.3 : ℚ) ≤ (calculateNextReview score ef intv reps now).easeFactor ∧
    (1.3 < ef → (calculateNextReview score ef intv reps now).easeFactor < ef) := by
  have hq : jsRound (score / 100 * 5) ≤ (2 : ℚ) := by
    have h2 := jsRound_le_of_lt (score / 100 * 5) 2 (by push_cast; linarith)
    exact_mod_cast h2
  have hq3 : ¬ ((3 : ℚ) ≤ jsRound (score / 100 * 5)) :=
    not_le.mpr (lt_of_le_of_lt hq (by norm_num))
  have hef : (calculateNextReview score ef intv reps now).easeFactor =
      max 1.3 (ef + (0.1 - (5 - jsRound (score / 100 * 5)) *
        (0.08 + (5 - jsRound (score / 100 * 5)) * 0.02))) := rfl
  refine ⟨?_, ?_, ?_, ?_⟩
  · simp [calculateNextReview, if_neg hq3]
  · simp [calculateNextReview, if_neg hq3]
  · rw [hef]; exact le_max_left _ _
  · intro h13
    rw [hef]
    have ht : (3 : ℚ) ≤ 5 - jsRound (score / 100 * 5) := by linarith
    have hdelta : (0.1 : ℚ) - (5 - jsRound (score / 100 * 5)) *
        (0.08 + (5 - jsRound (score / 100 * 5)) * 0.02) < 0 := by
      nlinarith [mul_self_nonneg (5 - jsRound (score / 100 * 5))]
    exact max_lt h13 (by linarith)

theorem schedule_fail_reset_witness :
    (40 : ℚ) < 50 ∧
    (calculateNextReview 40 2.5 10 5 0).repetitions = 0 ∧
    (calculateNextReview 40 2.5 10 5 0).interval = 1 ∧
    (1.3 : ℚ) ≤ (calculateNextReview 40 2.5 10 5 0).easeFactor ∧
    (calculateNextReview 40 2.5 10 5 0).easeFactor < 2.5 := by
  have h := schedule_fail_reset 40 2.5 10 5 0 (by norm_num)
  exact ⟨by norm_num, h.1, h.2.1, h.2.2.1, h.2.2.2 (by norm_num)⟩

/-- C6: starting from easeFactor 2.5, interval 0, repetitions 0, three
    successive calls with score 100 produce the intervals 1, 6 and
    round (6 * easeFactor) with easeFactor the value current at the
    third call (concretely 16), and the repetitions 1, 2, 3. -/
theorem schedule_pass_sequence (n1 n2 n3 : ℚ) :
    (calculateNextReview 100 2.5 0 0 n1).interval = 1 ∧
    (calculateNextReview 100 (calculateNextReview 100 2.5 0 0 n1).easeFactor
      (calculateNextReview 100 2.5 0 0 n1).interval
      (calculateNextReview 100 2.5 0 0 n1).repetitions n2).interval = 6 ∧
    (calculateNextReview 100
      (calculateNextReview 100 (calculateNextReview 100 2.5 0 0 n1).easeFactor
        (calculateNextReview 100 2.5 0 0 n1).interval
        (calculateNextReview 100 2.5 0 0 n1).repetitions n2).easeFactor
      (calculateNextReview 100 (calculateNextReview 100 2.5 0 0 n1).easeFactor
        (calculateNextReview 100 2.5 0 0 n1).interval
        (calculateNextReview 100 2.5 0 0 n1).repetitions n2).interval
      (calculateNextReview 100 (calculateNextReview 100 2.5 0 0 n1).easeFactor
        (calculateNextReview 100 2.5 0 0 n1).interval
        (calculateNextReview 100 2.5 0 0 n1).repetitions n2).repetitions n3).interval =
      jsRound (6 *
        (calculateNextReview 100 (calculateNextReview 100 2.5 0 0 n1).easeFactor
          (calculateNextReview 100 2.5 0 0 n1).interval
          (calculateNextReview 100 2.5 0 0 n1).repetitions n2).easeFactor) ∧
    (calculateNextReview 100
      (calculateNextReview 100 (calculateNextReview 100 2.5 0 0 n1).easeFactor
        (calculateNextReview 100 2.5 0 0 n1).interval
        (calculateNextReview 100 2.5 0 0 n1).repetitions n2).easeFactor
      (calculateNextReview 100 (calculateNextReview 100 2.5 0 0 n1).easeFactor
        (calculateNextReview 100 2.5 0 0 n1).interval
        (calculateNextReview 100 2.5 0 0 n1).repetitions n2).interval
      (calculateNextReview 100 (calculateNextReview 100 2.5 0 0 n1).easeFactor
        (calculateNextReview 100 2.5 0 0 n1).interval
        (calculateNextReview 100 2.5 0 0 n1).repetitions n2).repetitions n3).interval =
      16 ∧
    (calculateNextReview 100 2.5 0 0 n1).repetitions = 1 ∧
    (calculateNextReview 100 (calculateNextReview 100 2.5 0 0 n1).easeFactor
      (calculateNextReview 100 2.5 0 0 n1).interval
      (calculateNextReview 100 2.5 0 0 n1).repetitions n2).repetitions = 2 ∧
    (calculateNextReview 100
      (calculateNextReview 100 (calculateNextReview 100 2.5 0 0 n1).easeFactor
        (calculateNextReview 100 2.5 0 0 n1).interval
        (calculateNextReview 100 2.5 0 0 n1).repetitions n2).easeFactor
      (calculateNextReview 100 (calculateNextReview 100 2.5 0 0 n1).easeFactor
        (calculateNextReview 100 2.5 0 0 n1).interval
        (calculateNextReview 100 2.5 0 0 n1).repetitions n2).interval
      (calculateNextReview 100 (calculateNextReview 100 2.5 0 0 n1).easeFactor
        (calculateNextReview 100 2.5 0 0 n1).interval
        (calculateNextReview 100 2.5 0 0 n1).repetitions n2).repetitions n3).repetitions =
      3 := by
  have hr1e : (calculateNextReview 100 2.5 0 0 n1).easeFactor = 2.6 := by
    have h0 : (calculateNextReview 100 2.5 0 0 n1).easeFactor =
        (calculateNextReview 100 2.5 0 0 0).easeFactor := rfl
    rw [h0]; with_unfolding_all decide
  have hr1i : (calculateNextReview 100 2.5 0 0 n1).interval = 1 := by
    have h0 : (calculateNextReview 100 2.5 0 0 n1).interval =
        (calculateNextReview 100 2.5 0 0 0).interval := rfl
    rw [h0]; with_unfolding_all decide
  have hr1r : (calculateNextReview 100 2.5 0 0 n1).repetitions = 1 := by
    have h0 : (calculateNextReview 100 2.5 0 0 n1).repetitions =
        (calculateNextReview 100 2.5 0 0 0).repetitions := rfl
    rw [h0]; with_unfolding_all decide
  have hr2e : (calculateNextReview 100 2.6 1 1 n2).easeFactor = 2.7 := by
    have h0 : (calculateNextReview 100 2.6 1 1 n2).easeFactor =
        (calculateNextReview 100 2.6 1 1 0).easeFactor := rfl
    rw [h0]; with_unfolding_all decide
  have hr2i : (calculateNextReview 100 2.6 1 1 n2).interval = 6 := by
    have h0 : (calculateNextReview 100 2.6 1 1 n2).interval =
        (calculateNextReview 100 2.6 1 1 0).interval := rfl
    rw [h0]; with_unfolding_all decide
  have hr2r : (calculateNextReview 100 2.6 1 1 n2).repetitions = 2 := by
    have h0 : (calculateNextReview 100 2.6 1 1 n2).repetitions =
        (calculateNextReview 100 2.6 1 1 0).repetitions := rfl
    rw [h0]; with_unfolding_all decide
  have hr3i : (calculateNextReview 100 2.7 6 2 n3).interval = 16 := by
    have h0 : (calculateNextReview 100 2.7 6 2 n3).interval =
        (calculateNextReview 100 2.7 6 2 0).interval := rfl
    rw [h0]; with_unfolding_all decide
  have hr3r : (calculateNextReview 100 2.7 6 2 n3).repetitions = 3 := by
    have h0 : (calculateNextReview 100 2.7 6 2 n3).repetitions =
        (calculateNextReview 100 2.7 6 2 0).repetitions := rfl
    rw [h0]; with_unfolding_all decide
  rw [hr1e, hr1i, hr1r, hr2e, hr2i, hr2r]
  refine ⟨rfl, rfl, ?_, hr3i, rfl, rfl, hr3r⟩
  rw [hr3i]
  with_unfolding_all decide

/-- C5 counterexample: on an item with zero accepted answers the
    evaluator does not signal any error; it silently proceeds with the
    defensive defaults, returning an ordinary result with expected
    answer defaulted to the empty string. -/
theorem evaluate_malformed_counterexample :
    (evaluateAnswer 0 (S "anything") noAnswersItem).score = 0 ∧
    (evaluateAnswer 0 (S "anything") noAnswersItem).feedback.category =
      FeedbackCategory.incorrect ∧
    (evaluateAnswer 0 (S "anything") noAnswersItem).expectedAnswer = [] := by
  refine ⟨?_, ?_, ?_⟩ <;> with_unfolding_all decide

/-- C5 amended: evaluateAnswer never signals an error on any item; it
    is a total function whose score is always clamped to the range
    0..100, malformed items included, and with zero accepted answers
    the expected answer defaults to the empty string. -/
theorem evaluate_total_in_range (r : Nat) (ua : Str) (q : Question) :
    (0 ≤ (evaluateAnswer r ua q).score ∧ (evaluateAnswer r ua q).score ≤ 100) ∧
    (q.expectedAnswers = [] → (evaluateAnswer r ua q).expectedAnswer = []) := by
  constructor
  · simp only [evaluateAnswer]
    cases hb : q.expectedAnswers.any
        (fun expected => normalizeText expected == normalizeText ua)
    case false =>
      simp only [hb, Bool.false_eq_true, if_false]
      exact ⟨le_min (by norm_num) (le_max_left 0 _), min_le_left _ _⟩
    case true =>
      simp only [hb, if_true]
      norm_num
  · intro hq
    simp only [evaluateAnswer, hq]
    norm_num

theorem exactDetails_found (ks : List Str) :
    ∀ (ws : List ℚ) (d : KeywordDetail), d ∈ exactDetails ks ws → d.found = true := by
  induction ks with
  | nil => intro ws d hd; simp [exactDetails] at hd
  | cons k ks ih =>
    intro ws d hd
    simp only [exactDetails, List.mem_cons] at hd
    rcases hd with h | h
    · rw [h]
    · exact ih _ _ h

/-- C1: whenever the normalized user answer equals the normalized form
    of some accepted answer, evaluateAnswer returns score 100 and
    keywordScore 100 with every keyword marked found and feedback
    category perfect; in particular this holds for the answer
    The Mitochondria against the item accepting the mitochondria. -/
theorem evaluate_exact_match (r : Nat) (ua : Str) (q : Question)
    (h : ∃ e ∈ q.expectedAnswers, normalizeText e = normalizeText ua) :
    (evaluateAnswer r ua q).score = 100 ∧
    (evaluateAnswer r ua q).keywordScore = 100 ∧
    (∀ d ∈ (evaluateAnswer r ua q).keywordDetails, d.found = true) ∧
    (evaluateAnswer r ua q).feedback.category = FeedbackCategory.perfect := by
  have hany : (q.expectedAnswers.any
      (fun expected => normalizeText expected == normalizeText ua)) = true := by
    rw [List.any_eq_true]
    obtain ⟨e, he, hee⟩ := h
    exact ⟨e, he, by simp [hee]⟩
  refine ⟨?_, ?_, ?_, ?_⟩ <;> simp only [evaluateAnswer, hany, if_true]
  · exact exactDetails_found _ _
  · rw [generateFeedback_category]
    norm_num

theorem evaluate_exact_match_witness :
    (∃ e ∈ mitoItem.expectedAnswers,
      normalizeText e = normalizeText (S "The Mitochondria")) ∧
    (evaluateAnswer 0 (S "The Mitochondria") mitoItem).score = 100 ∧
    (evaluateAnswer 0 (S "The Mitochondria") mitoItem).feedback.category =
      FeedbackCategory.perfect := by
  have h : ∃ e ∈ mitoItem.expectedAnswers,
      normalizeText e = normalizeText (S "The Mitochondria") :=
    ⟨S "the mitochondria", by simp [mitoItem], by decide⟩
  exact ⟨h, (evaluate_exact_match 0 _ _ h).1, (evaluate_exact_match 0 _ _ h).2.2.2⟩

theorem analyzeDetails_mem_found (text : Str) (ks : List Str) :
    ∀ (ws : List ℚ) (d : KeywordDetail), d ∈ analyzeDetails text ks ws →
      d.found = findKeywordInText text d.keyword (3/4) := by
  induction ks with
  | nil => intro ws d hd; simp [analyzeDetails] at hd
  | cons k ks ih =>
    intro ws d hd
    simp only [analyzeDetails, List.mem_cons] at hd
    rcases hd with h | h
    · rw [h]
    · exact ih _ _ h

/-- C10: a keyword whose normalized form is empty is always reported
    found by findKeywordInText, because the empty string is a
    substring of every text, and analyzeKeywords therefore marks it
    found regardless of the user answer. -/
theorem empty_keyword_always_found :
    (∀ (text keyword : Str) (threshold : ℚ), normalizeText keyword = [] →
      findKeywordInText text keyword threshold = true) ∧
    (∀ (text : Str) (ks : List Str) (ws : List ℚ) (d : KeywordDetail),
      d ∈ (analyzeKeywords text ks ws).details → normalizeText d.keyword = [] →
      d.found = true) := by
  have hincl : ∀ s : Str, strIncludes s [] = true := by
    intro s; cases s <;> simp [strIncludes, isPrefixStr]
  have hfind : ∀ (text keyword : Str) (threshold : ℚ), normalizeText keyword = [] →
      findKeywordInText text keyword threshold = true := by
    intro text keyword θ h
    simp only [findKeywordInText, h]
    simp [hincl]
  refine ⟨hfind, ?_⟩
  intro text ks ws d hd hnorm
  by_cases hks : ks = []
  · simp [analyzeKeywords, hks] at hd
  · simp only [analyzeKeywords, if_neg hks] at hd
    rw [analyzeDetails_mem_found text ks ws d hd]
    exact hfind text d.keyword _ hnorm

theorem empty_keyword_always_found_witness :
    normalizeText (S "?!") = [] ∧
    findKeywordInText (S "hello world") (S "?!") (3/4) = true := by
  have h : normalizeText (S "?!") = [] := by decide
  exact ⟨h, empty_keyword_always_found.1 (S "hello world") (S "?!") (3/4) h⟩

/-- C9: levenshteinDistance is symmetric, vanishes on equal strings
    and satisfies the triangle inequality; concretely the distance
    between kitten and sitting is 3, between two empty strings 0, and
    between abc and itself 0. -/
theorem editDistance_metric (a b c : Str) :
    levenshteinDistance a b = levenshteinDistance b a ∧
    levenshteinDistance a a = 0 ∧
    levenshteinDistance a c ≤ levenshteinDistance a b + levenshteinDistance b c ∧
    levenshteinDistance (S "kitten") (S "sitting") = 3 ∧
    levenshteinDistance (S "") (S "") = 0 ∧
    levenshteinDistance (S "abc") (S "abc") = 0 := by
  refine ⟨?_, ?_, ?_, by decide, by decide, by decide⟩
  · rw [levenshteinDistance_eq, levenshteinDistance_eq]; exact lev_comm a b
  · rw [levenshteinDistance_eq]; exact lev_self a
  · rw [levenshteinDistance_eq, levenshteinDistance_eq, levenshteinDistance_eq]
    exact lev_triangle a b c

theorem analyzeDetails_eq_zipWith (text : Str) (ks : List Str) :
    ∀ ws : List ℚ, ks.length = ws.length → (∀ w ∈ ws, w ≠ 0) →
      analyzeDetails text ks ws =
        List.zipWith (fun k w => ⟨k, findKeywordInText text k (3/4), w⟩) ks ws := by
  induction ks with
  | nil =>
    intro ws h _
    have hws : ws = [] := by cases ws with
      | nil => rfl
      | cons w ws' => simp at h
    subst hws
    simp [analyzeDetails]
  | cons k ks ih =>
    intro ws h hnz
    cases ws with
    | nil => simp at h
    | cons w ws' =>
      have hw : jsWeight (w :: ws').head? = w := by
        simp [jsWeight, hnz w (by simp)]
      simp only [analyzeDetails, List.zipWith_cons_cons, List.tail_cons]
      rw [hw, ih ws' (by simpa using h) (fun v hv => hnz v (by simp [hv]))]

theorem matched_sum_eq (text : Str) (ks : List Str) :
    ∀ ws : List ℚ,
      ((List.zipWith (fun k w =>
          (⟨k, findKeywordInText text k (3/4), w⟩ : KeywordDetail)) ks ws).map
        (fun d => if d.found then d.weight else 0)).sum =
      (((ks.zip ws).filter (fun p => findKeywordInText text p.1 (3/4))).map
        Prod.snd).sum := by
  induction ks with
  | nil => intro ws; simp
  | cons k ks ih =>
    intro ws
    cases ws with
    | nil => simp
    | cons w ws' =>
      simp only [List.zipWith_cons_cons, List.map_cons, List.sum_cons,
        List.zip_cons_cons, List.filter_cons]
      by_cases hf : findKeywordInText text k (3/4) = true
      · simp [hf, ih]
      · simp [hf, ih]

/-- C7 amended: for parallel keyword and weight lists of equal length
    with every weight positive, analyzeKeywords returns score 100 with
    empty details on an empty keyword list, otherwise its score is
    100 times the matched weight over the total weight, and its
    details list pairs the keywords in input order with their found
    flags and their own weights.  (With a zero weight the source
    defaults that weight to 1 through the JS or, so the claim as
    stated over arbitrary weight lists fails; see the
    counterexample.) -/
theorem analyzeKeywords_spec (text : Str) (ks : List Str) (ws : List ℚ)
    (hlen : ks.length = ws.length) (hpos : ∀ w ∈ ws, 0 < w) :
    (analyzeKeywords text ks ws).details =
      List.zipWith (fun k w => ⟨k, findKeywordInText text k (3/4), w⟩) ks ws ∧
    (ks = [] → (analyzeKeywords text ks ws).score = 100) ∧
    (ks ≠ [] → (analyzeKeywords text ks ws).score =
      100 * (((ks.zip ws).filter (fun p => findKeywordInText text p.1 (3/4))).map
        Prod.snd).sum / ws.sum) := by
  have hnz : ∀ w ∈ ws, w ≠ 0 := fun w hw => ne_of_gt (hpos w hw)
  by_cases hks : ks = []
  · subst hks
    have hws : ws = [] := by
      cases ws with
      | nil => rfl
      | cons w ws' => simp at hlen
    subst hws
    exact ⟨by simp [analyzeKeywords], fun _ => by simp [analyzeKeywords],
      fun hne => absurd rfl hne⟩
  · have hwsne : ws ≠ [] := by
      intro hw
      subst hw
      exact hks (List.length_eq_zero.mp hlen)
    have hdet := analyzeDetails_eq_zipWith text ks ws hlen hnz
    have hsum : 0 < ws.sum := List.sum_pos ws hpos hwsne
    refine ⟨?_, fun h => absurd h hks, fun _ => ?_⟩
    · simp only [analyzeKeywords, if_neg hks]
      exact hdet
    · simp only [analyzeKeywords, if_neg hks]
      rw [hdet, matched_sum_eq, if_pos hsum]
      ring

theorem analyzeKeywords_spec_witness :
    ([S "mitochondria"].length = [(2 : ℚ)].length) ∧
    (∀ w ∈ [(2 : ℚ)], 0 < w) ∧
    (analyzeKeywords (S "the mitochondria") [S "mitochondria"] [2]).details =
      List.zipWith (fun k w => ⟨k, findKeywordInText (S "the mitochondria") k (3/4), w⟩)
        [S "mitochondria"] [(2 : ℚ)] ∧
    (analyzeKeywords (S "the mitochondria") [S "mitochondria"] [2]).score =
      100 * ((([S "mitochondria"].zip [(2 : ℚ)]).filter
        (fun p => findKeywordInText (S "the mitochondria") p.1 (3/4))).map
        Prod.snd).sum / [(2 : ℚ)].sum := by
  have hpos : ∀ w ∈ [(2 : ℚ)], 0 < w := by norm_num
  have h := analyzeKeywords_spec (S "the mitochondria") [S "mitochondria"] [2] rfl hpos
  exact ⟨rfl, hpos, h.1, h.2.2 (by simp)⟩

/-- C7 counterexample: with weight list 0, 1 and the first keyword
    found, the JS or-default turns the zero weight into 1, so the
    score is 100 where the claimed formula gives 0, and the details
    carry weight 1 instead of the supplied 0. -/
theorem analyzeKeywords_zero_weight_counterexample :
    (analyzeKeywords (S "a") [S "a", S "b"] [0, 1]).score = 100 ∧
    (analyzeKeywords (S "a") [S "a", S "b"] [0, 1]).score ≠
      100 * ((([S "a", S "b"].zip [(0 : ℚ), 1]).filter
        (fun p => findKeywordInText (S "a") p.1 (3/4))).map Prod.snd).sum
        / [(0 : ℚ), 1].sum ∧
    ((analyzeKeywords (S "a") [S "a", S "b"] [0, 1]).details.map
      KeywordDetail.weight) ≠ [0, 1] := by
  refine ⟨?_, ?_, ?_⟩ <;> with_unfolding_all decide

/-- C3 counterexample: in the end-to-end scenario both keywords are
    found, yet the combined score is below 90 - keyword coverage only
    carries 45 percent of the weight, so with word overlap 200/3, edit
    similarity 1300/21 and phrase bonus 25 the rounded total is 75. -/
theorem endtoend_counterexample :
    (evaluateAnswer 0 (S "the mitochondria is the powerhouse") c3item).keywordScore =
      100 ∧
    (evaluateAnswer 0 (S "the mitochondria is the powerhouse") c3item).score < 90 := by
  constructor <;> with_unfolding_all decide

/-- C3 amended: in the end-to-end scenario both keywords are found
    (keywordScore 100), the score is 75 with feedback category good,
    and feeding that score into the scheduler from easeFactor 2.5,
    interval 0, repetitions 0 yields interval 1 and repetitions 1. -/
theorem endtoend_scenario (now : ℚ) :
    (evaluateAnswer 0 (S "the mitochondria is the powerhouse") c3item).keywordScore =
      100 ∧
    (∀ d ∈ (evaluateAnswer 0 (S "the mitochondria is the powerhouse")
      c3item).keywordDetails, d.found = true) ∧
    (evaluateAnswer 0 (S "the mitochondria is the powerhouse") c3item).score = 75 ∧
    (evaluateAnswer 0 (S "the mitochondria is the powerhouse")
      c3item).feedback.category = FeedbackCategory.good ∧
    (calculateNextReview 75 2.5 0 0 now).interval = 1 ∧
    (calculateNextReview 75 2.5 0 0 now).repetitions = 1 := by
  have hi : (calculateNextReview 75 2.5 0 0 now).interval =
      (calculateNextReview 75 2.5 0 0 0).interval := rfl
  have hr : (calculateNextReview 75 2.5 0 0 now).repetitions =
      (calculateNextReview 75 2.5 0 0 0).repetitions := rfl
  refine ⟨?_, ?_, ?_, ?_, ?_, ?_⟩
  · with_unfolding_all decide
  · with_unfolding_all decide
  · with_unfolding_all decide
  · with_unfolding_all decide
  · rw [hi]; with_unfolding_all decide
  · rw [hr]; with_unfolding_all decide

theorem evaluate_total_in_range_witness :
    (0 ≤ (evaluateAnswer 0 (S "anything") noAnswersItem).score ∧
      (evaluateAnswer 0 (S "anything") noAnswersItem).score ≤ 100) ∧
    noAnswersItem.expectedAnswers = [] ∧
    (evaluateAnswer 0 (S "anything") noAnswersItem).expectedAnswer = [] := by
  have h := evaluate_total_in_range 0 (S "anything") noAnswersItem
  exact ⟨h.1, rfl, h.2 rfl⟩
